import Mathlib

/-!
Verification of the camera capture-to-network streaming pipeline of the
esp_rs_cam_app firmware (src/crates/app/src/cam/mod.rs).

The repository exhibits two pipeline variants:

* `cam_task` (channel variant): scans DMA chunks for JPEG markers, keeps an
  in-progress frame in a growable `Vec<u8>` called `frame_buffer`, and sends
  tagged events `FrameStart | Data(bytes) | FrameEnd` on `CAM_CHANNEL`.
* `stream_camera` (socket variant): same marker scan, but writes into a
  fixed-capacity `frame_buffer` via a cursor `buf_len` and delivers byte
  slices through `on_chunk`, returning the `(Camera, DmaRxStreamBuf)` pair
  on every exit path.

Bytes are modelled as `Nat` (the source works on `u8` slices; none of the
scanning logic relies on wrap-around arithmetic).  The JPEG markers are
0xFF 0xD8 = 255, 216 (start of image) and 0xFF 0xD9 = 255, 217 (end of image).
-/

/-- Events sent from `cam_task` to the HTTP task, from `enum CamEvent`. -/
inductive CamEvent where
  | frameStart
  | data (bytes : List Nat)
  | frameEnd
deriving DecidableEq, Repr

/-- Parser state of `cam_task`: the `found_start` flag and the `Vec<u8>`
`frame_buffer` holding the in-progress frame bytes. -/
structure CamState where
  found_start : Bool
  frame_buffer : List Nat
deriving DecidableEq, Repr

/-- One non-marker byte while `found_start` holds, from `cam_task`:
`frame_buffer.push(data[i])` followed by the 2048-byte flush
(`if frame_buffer.len() >= 2048 { send Data(take(frame_buffer)) }`).
Returns the new buffer contents and the events sent. -/
def pushByte (a : Nat) (fb : List Nat) : List Nat × List CamEvent :=
  let fb2 := fb ++ [a]
  if 2048 ≤ fb2.length then ([], [CamEvent.data fb2]) else (fb2, [])

/-- The inner `while i < len` scan of `cam_task` over one delivered chunk
(src/crates/app/src/cam/mod.rs lines 160-199).  Marker matches require the
two bytes at `i` and `i+1` of the same chunk (`i + 1 < len` in the source),
so the single-byte tail of a chunk can never match. -/
def camTaskScan : List Nat → CamState → CamState × List CamEvent
  | [], st => (st, [])
  | [a], st =>
    if st.found_start then
      -- last byte of the chunk: `i + 1 < len` fails, so only the push branch
      let p := pushByte a st.frame_buffer
      (⟨true, p.1⟩, p.2)
    else
      (st, [])
  | a :: b :: rest, st =>
    if st.found_start then
      if a = 255 ∧ b = 217 then
        -- `frame_buffer.push(0xFF); push(0xD9)`, send Data if nonempty,
        -- send FrameEnd, `found_start = false`, `i += 2`
        let fb2 := st.frame_buffer ++ [255, 217]
        let evs0 := if fb2 = [] then [CamEvent.frameEnd]
                    else [CamEvent.data fb2, CamEvent.frameEnd]
        let r := camTaskScan rest ⟨false, []⟩
        (r.1, evs0 ++ r.2)
      else
        let p := pushByte a st.frame_buffer
        let r := camTaskScan (b :: rest) ⟨true, p.1⟩
        (r.1, p.2 ++ r.2)
    else
      if a = 255 ∧ b = 216 then
        -- `found_start = true; frame_buffer.clear(); send FrameStart;
        -- frame_buffer.extend_from_slice(&[0xFF, 0xD8]); i += 2`
        let r := camTaskScan rest ⟨true, [255, 216]⟩
        (r.1, CamEvent.frameStart :: r.2)
      else
        camTaskScan (b :: rest) st

/-- Feeding a sequence of delivered chunks through the `cam_task` scanner,
accumulating the events in delivery order. -/
def runChunksCam : List (List Nat) → CamState → CamState × List CamEvent
  | [], st => (st, [])
  | c :: cs, st =>
    let r1 := camTaskScan c st
    let r2 := runChunksCam cs r1.1
    (r2.1, r1.2 ++ r2.2)

/-- Grouping the event stream back into completed frames: a frame is the
concatenation of all `Data` payloads delivered between a `FrameStart` and
the following `FrameEnd`. -/
def framesGo : Bool → List Nat → List CamEvent → List (List Nat)
  | _, _, [] => []
  | _, _, CamEvent.frameStart :: rest => framesGo true [] rest
  | inFrame, acc, CamEvent.data bs :: rest => framesGo inFrame (acc ++ bs) rest
  | _, acc, CamEvent.frameEnd :: rest => acc :: framesGo false [] rest

/-- Completed frames carried by an event stream. -/
def framesOfEvents (evs : List CamEvent) : List (List Nat) :=
  framesGo false [] evs

mutual

/-- Reference frame extraction, written from the words of the spec
("one CompletedFrame per complete marker pair, the bytes of each frame equal
exactly the bytes between (inclusive) its markers"): scan the flat byte
stream for 0xFF 0xD8, then collect every byte up to and including the next
0xFF 0xD9 as one frame, and continue.  This is the comparison point for the
refinement claim; the executable model of the code is `camTaskScan`. -/
def specFrames : List Nat → List (List Nat)
  | [] => []
  | [_] => []
  | a :: b :: rest =>
    if a = 255 ∧ b = 216 then specCollect rest [255, 216]
    else specFrames (b :: rest)
termination_by xs => xs.length

/-- In-frame half of `specFrames`: accumulate bytes until 0xFF 0xD9. -/
def specCollect : List Nat → List Nat → List (List Nat)
  | [], _ => []
  | [_], _ => []
  | a :: b :: rest, acc =>
    if a = 255 ∧ b = 217 then (acc ++ [255, 217]) :: specFrames rest
    else specCollect (b :: rest) (acc ++ [a])
termination_by xs _ => xs.length

end

/-!
Section: The `stream_camera` (socket) variant

`stream_camera` writes into a buffer named `frame_buffer` whose declaration
is not present under src/ (the function is marked `TODO WORK`); the code
indexes it as a fixed-capacity array and compares `buf_len` with
`frame_buffer.len()`.  The model keeps the list `buf` of bytes written
since the last cursor reset: the source only ever writes at index
`buf_len` (the end of the written prefix) and only ever reads the slice
`frame_buffer[..buf_len]`, so the written prefix determines every
observable value.  The capacity is the parameter `cap`.  A write at an
index at or past the capacity is an out-of-bounds array access, which
panics in Rust: the model records it as the `panic` outcome and stops, as
the unwinding code never runs the rest of the loop.
-/

/-- Parser state of `stream_camera`: `found_start` and the bytes written
into `frame_buffer` since the cursor was last reset (`buf_len` is its
length). -/
structure SState where
  found_start : Bool
  buf : List Nat
deriving DecidableEq, Repr

/-- The cursor `buf_len` of `stream_camera`. -/
def SState.buf_len (st : SState) : Nat := st.buf.length

/-- Outcome of scanning one chunk in `stream_camera`: `outs` lists the byte
slices passed to `on_chunk`, in order.  `exit` is the early `return
transfer.stop()` taken when `on_chunk` fails; `panic` is an out-of-bounds
buffer write. -/
inductive ScanOut where
  | panic (st : SState) (outs : List (List Nat))
  | exit (st : SState) (outs : List (List Nat)) (sends : List Bool)
  | cont (st : SState) (outs : List (List Nat)) (sends : List Bool)
deriving DecidableEq, Repr

/-- Prefix earlier `on_chunk` payloads onto an outcome. -/
def ScanOut.prepend (o : List (List Nat)) : ScanOut → ScanOut
  | panic st outs => panic st (o ++ outs)
  | exit st outs sends => exit st (o ++ outs) sends
  | cont st outs sends => cont st (o ++ outs) sends

/-- Result of the next `on_chunk` call, drawn from a schedule of send
results; an exhausted schedule means the send succeeds. -/
def takeSend : List Bool → Bool × List Bool
  | [] => (true, [])
  | b :: rest => (b, rest)

/-- One non-marker byte while `found_start` holds, from `stream_camera`
(lines 282-299): the bounds-guarded write (`if buf_len < frame_buffer.len()`,
otherwise the byte is dropped with an overflow warning), then the 2048-byte
early send with `buf_len = 0` on success and `return transfer.stop()` on
failure. -/
def streamData (cap : Nat) (a : Nat) (st : SState) (sends : List Bool) : ScanOut :=
  let buf2 := if st.buf.length < cap then st.buf ++ [a] else st.buf
  if 2048 ≤ buf2.length then
    let s := takeSend sends
    if s.1 then ScanOut.cont ⟨st.found_start, []⟩ [buf2] s.2
    else ScanOut.exit ⟨st.found_start, buf2⟩ [buf2] s.2
  else
    ScanOut.cont ⟨st.found_start, buf2⟩ [] sends

/-- The inner `while i < len` scan of `stream_camera` over one delivered
chunk (lines 250-302).  The start-marker branch resets `buf_len` to 0 and
writes 0xFF 0xD8 at indexes 0 and 1; the end-marker branch writes 0xFF 0xD9
at `buf_len` and `buf_len + 1` without a bounds check, sends the frame
slice, and on success resets the state.  Unchecked writes panic when the
index reaches the capacity. -/
def streamScan (cap : Nat) : List Nat → SState → List Bool → ScanOut
  | [], st, sends => ScanOut.cont st [] sends
  | [a], st, sends =>
    if st.found_start then streamData cap a st sends
    else ScanOut.cont st [] sends
  | a :: b :: rest, st, sends =>
    if st.found_start then
      if a = 255 ∧ b = 217 then
        if st.buf.length < cap then
          if st.buf.length + 1 < cap then
            let buf2 := st.buf ++ [255, 217]
            let s := takeSend sends
            if s.1 then
              (streamScan cap rest ⟨false, []⟩ s.2).prepend [buf2]
            else
              ScanOut.exit ⟨true, buf2⟩ [buf2] s.2
          else
            ScanOut.panic ⟨true, st.buf ++ [255]⟩ []
        else
          ScanOut.panic ⟨true, st.buf⟩ []
      else
        match streamData cap a st sends with
        | ScanOut.cont st2 outs s2 => (streamScan cap (b :: rest) st2 s2).prepend outs
        | r => r
    else
      if a = 255 ∧ b = 216 then
        if 0 < cap then
          if 1 < cap then
            streamScan cap rest ⟨true, [255, 216]⟩ sends
          else
            ScanOut.panic ⟨true, [255]⟩ []
        else
          ScanOut.panic ⟨true, []⟩ []
      else
        streamScan cap (b :: rest) st sends

/-!
Section: Burst structure and the session loop

Each `camera.receive(dma_buf)` starts one DMA burst.  Both variants then run
the same three loops over `transfer.peek_until_eof()` results: two loops
that consume and discard data until the end-of-burst flag is seen (the two
dummy transfers), then the main loop that scans each peeked chunk and
consumes it until the flag is seen again.  A burst is modelled by the list
of `(data, eof)` pairs the successive peek calls return.
-/

/-- One skip loop of the dummy-transfer phase (`loop { peek; consume; if eof
break }`): drop peeks until one carries the end-of-burst flag, returning
the remaining peeks; `none` when the peek schedule runs out before the flag
(the source loop would still be waiting for data). -/
def skipPeeks : List (List Nat × Bool) → Option (List (List Nat × Bool))
  | [] => none
  | (_, e) :: rest => if e then some rest else skipPeeks rest

/-- A complete transfer segment: at least one peek, the end-of-burst flag
raised exactly on the last peek. -/
def isSegment : List (List Nat × Bool) → Bool
  | [] => false
  | [(_, e)] => e
  | (_, e) :: p :: rest => !e && isSegment (p :: rest)

/-- The main loop of one `cam_task` burst: scan each peeked chunk,
consume it, stop at the end-of-burst flag.  `none` when the peek schedule
runs out before the flag. -/
def camMain : List (List Nat × Bool) → CamState → Option (CamState × List CamEvent)
  | [], _ => none
  | (d, e) :: rest, st =>
    let r := camTaskScan d st
    if e then some r
    else (camMain rest r.1).map fun p => (p.1, r.2 ++ p.2)

/-- One full `cam_task` burst: skip two dummy transfer segments, then run
the main scan loop (lines 144-206). -/
def camBurst (peeks : List (List Nat × Bool)) (st : CamState) :
    Option (CamState × List CamEvent) :=
  match skipPeeks peeks with
  | none => none
  | some p1 =>
    match skipPeeks p1 with
    | none => none
    | some p2 => camMain p2 st

/-- Outcome of the main loop of one `stream_camera` burst. -/
inductive MainOut where
  | stuck (outs : List (List Nat))
  | panicMain (outs : List (List Nat))
  | exited (outs : List (List Nat))
  | eofDone (st : SState) (sends : List Bool) (outs : List (List Nat))
deriving DecidableEq, Repr

/-- Prefix earlier `on_chunk` payloads onto a main-loop outcome. -/
def MainOut.prepend (o : List (List Nat)) : MainOut → MainOut
  | stuck outs => stuck (o ++ outs)
  | panicMain outs => panicMain (o ++ outs)
  | exited outs => exited (o ++ outs)
  | eofDone st sends outs => eofDone st sends (o ++ outs)

/-- The main loop of one `stream_camera` burst (lines 244-309): scan each
peeked chunk; a failed `on_chunk` becomes `exited` (the source does `return
transfer.stop()`), an out-of-bounds write becomes `panicMain`, the
end-of-burst flag becomes `eofDone` with the state carried to the next
burst. -/
def streamMain (cap : Nat) : List (List Nat × Bool) → SState → List Bool → MainOut
  | [], _, _ => MainOut.stuck []
  | (d, e) :: rest, st, sends =>
    match streamScan cap d st sends with
    | ScanOut.panic _ outs => MainOut.panicMain outs
    | ScanOut.exit _ outs _ => MainOut.exited outs
    | ScanOut.cont st2 outs s2 =>
      if e then MainOut.eofDone st2 s2 outs
      else (streamMain cap rest st2 s2).prepend outs

/-- One full `stream_camera` burst: skip two dummy transfer segments, then
run the main scan loop (lines 232-309). -/
def streamBurst (cap : Nat) (peeks : List (List Nat × Bool)) (st : SState)
    (sends : List Bool) : MainOut :=
  match skipPeeks peeks with
  | none => MainOut.stuck []
  | some p1 =>
    match skipPeeks p1 with
    | none => MainOut.stuck []
    | some p2 => streamMain cap p2 st sends

/-- Outcome of one `camera.receive(dma_buf)` call in the outer session
loop: a hardware receive error (the `Err((e, _cam, _buf))` arm) or a burst
delivering the given peeks. -/
inductive BurstIn where
  | recvErr
  | ok (peeks : List (List Nat × Bool))
deriving DecidableEq, Repr

/-- How a `stream_camera` session ends.  `ret cam buf` is the function
returning the `(Camera, DmaRxStreamBuf)` pair to the caller; `panicked` is
an out-of-bounds buffer write; `outOfFuel` means the modelled schedule
ended while the source loop would still be running. -/
inductive SessOut where
  | ret (cam : Nat) (buf : Nat)
  | panicked
  | outOfFuel
deriving DecidableEq, Repr

/-- The outer `loop` of `stream_camera` (lines 215-313), driven by a finite
schedule of burst outcomes.  The camera and DMA buffer are identity tokens:
`camera.receive` moves them into the transfer, `transfer.stop()` returns
the same pair, and each of the three `return` sites of the source hands
that pair back to the caller.  Parser state and the send schedule persist
across bursts, as `buf_len` and `found_start` are declared outside the
loop. -/
def streamSession (cap : Nat) :
    List BurstIn → Nat → Nat → SState → List Bool → SessOut
  | [], _, _, _, _ => SessOut.outOfFuel
  | BurstIn.recvErr :: _, cam, buf, _, _ => SessOut.ret cam buf
  | BurstIn.ok peeks :: rest, cam, buf, st, sends =>
    match streamBurst cap peeks st sends with
    | MainOut.stuck _ => SessOut.outOfFuel
    | MainOut.panicMain _ => SessOut.panicked
    | MainOut.exited _ => SessOut.ret cam buf
    | MainOut.eofDone st2 s2 _ => streamSession cap rest cam buf st2 s2

/-!
Section: The multipart streamer

Modelled from the spec: the `on_chunk` function called by `stream_camera`
and the HTTP response-header emission are not present under src/ (the
header write at line 256 is commented out and `on_chunk` has no definition
in the repository), so the Multipart Streamer of spec section 4.2 is
modelled from the words of the spec: a part header
`--frame\r\nContent-Type: image/jpeg\r\nContent-Length: <N>\r\n\r\n` with N
the frame byte length in decimal ASCII, the frame bytes verbatim, then
`\r\n`; and once per session, before the first frame, the response header
`HTTP/1.1 200 OK` with `Content-Type: multipart/x-mixed-replace;
boundary=frame`, `Cache-Control: no-cache`, `Connection: keep-alive` and
a blank line.
-/

/-- ASCII bytes of a string. -/
def asciiBytes (s : String) : List Nat := s.data.map Char.toNat

/-- Decimal ASCII digits of a number, most significant first. -/
def decAscii (n : Nat) : List Nat :=
  if n = 0 then [48] else (Nat.digits 10 n).reverse.map (fun d => d + 48)

/-- Reading decimal ASCII digits back into a number. -/
def parseDec (l : List Nat) : Nat :=
  l.foldl (fun acc d => acc * 10 + (d - 48)) 0

/-- Modelled from the spec: the multipart part header for a frame of `n`
bytes. -/
def partHeader (n : Nat) : List Nat :=
  asciiBytes "--frame\r\nContent-Type: image/jpeg\r\nContent-Length: "
    ++ decAscii n ++ asciiBytes "\r\n\r\n"

/-- Modelled from the spec: the bytes emitted for one completed frame:
part header, frame bytes verbatim, trailing CRLF. -/
def framePart (frame : List Nat) : List Nat :=
  partHeader frame.length ++ frame ++ [13, 10]

/-- Modelled from the spec: the enclosing HTTP response header, sent once
before the first frame. -/
def responseHeader : List Nat :=
  asciiBytes "HTTP/1.1 200 OK\r\nContent-Type: multipart/x-mixed-replace; boundary=frame\r\nCache-Control: no-cache\r\nConnection: keep-alive\r\n\r\n"

/-- Modelled from the spec: the whole output of a session delivering the
given completed frames in order. -/
def sessionBytes (frames : List (List Nat)) : List Nat :=
  responseHeader ++ (frames.map framePart).flatten

/-!
Section: Input predicates used by the claims
-/

/-- The byte list contains the two-byte start-of-image marker 0xFF 0xD8 at
adjacent positions. -/
def hasSOI : List Nat → Bool
  | [] => false
  | [_] => false
  | a :: b :: rest => (a == 255 && b == 216) || hasSOI (b :: rest)

/-- The byte list contains the two-byte end-of-image marker 0xFF 0xD9 at
adjacent positions. -/
def hasEOI : List Nat → Bool
  | [] => false
  | [_] => false
  | a :: b :: rest => (a == 255 && b == 217) || hasEOI (b :: rest)

/-- The boundary between a chunk and the bytes delivered after it does not
split a marker: if the chunk ends with 0xFF, the next delivered byte is
neither 0xD8 nor 0xD9. -/
def boundaryOk (c rest : List Nat) : Bool :=
  !((c.getLast? == some 255) && ((rest.head? == some 216) || (rest.head? == some 217)))

/-- No chunk boundary of the delivery splits a two-byte marker. -/
def noStraddle : List (List Nat) → Bool
  | [] => true
  | c :: cs => boundaryOk c cs.flatten && noStraddle cs

/-- Parser-state invariant of the channel variant, from the spec data
model: when no frame is open the write cursor is 0 (the buffer holds no
bytes). -/
def CamInv (st : CamState) : Prop :=
  st.found_start = false → st.frame_buffer = []

/-- Parser-state invariant of the socket variant: when no frame is open,
`buf_len` is 0. -/
def SInv (st : SState) : Prop :=
  st.found_start = false → st.buf = []

/-- The scan outcome carries a state satisfying the parser invariant. -/
def ScanOut.presInv : ScanOut → Prop
  | panic st _ => SInv st
  | exit st _ _ => SInv st
  | cont st _ _ => SInv st

/-- The scan outcome did not panic and its state still has an open frame. -/
def ScanOut.stillInFrame : ScanOut → Prop
  | panic _ _ => False
  | exit st _ _ => st.found_start = true
  | cont st _ _ => st.found_start = true

/-- Bounds discipline of the socket variant with capacity `cap`: no
out-of-bounds write happened, a continuing state keeps the cursor at or
below 2047 (so the next unguarded end-marker write stays in bounds when
`2049 ≤ cap`), and an early-exit state keeps the cursor at or below the
capacity. -/
def ScanOut.inBounds (cap : Nat) : ScanOut → Prop
  | panic _ _ => False
  | exit st _ _ => st.buf.length ≤ cap
  | cont st _ _ => st.buf.length ≤ 2047

/-!
Section: Helper lemmas
-/

theorem hasSOI_cons {a : Nat} {l : List Nat} (h : hasSOI (a :: l) = false) :
    hasSOI l = false := by
  cases l with
  | nil => rfl
  | cons b l2 =>
    simp only [hasSOI, Bool.or_eq_false_iff, Bool.and_eq_false_iff] at h
    exact h.2

theorem hasEOI_cons {a : Nat} {l : List Nat} (h : hasEOI (a :: l) = false) :
    hasEOI l = false := by
  cases l with
  | nil => rfl
  | cons b l2 =>
    simp only [hasEOI, Bool.or_eq_false_iff, Bool.and_eq_false_iff] at h
    exact h.2

theorem hasSOI_not_pair {a b : Nat} {l : List Nat}
    (h : hasSOI (a :: b :: l) = false) : ¬(a = 255 ∧ b = 216) := by
  simp only [hasSOI, Bool.or_eq_false_iff, Bool.and_eq_false_iff, beq_eq_false_iff_ne,
    ne_eq] at h
  rcases h.1 with h1 | h1 <;> exact fun hc => h1 (by simp [hc.1, hc.2])

theorem hasEOI_not_pair {a b : Nat} {l : List Nat}
    (h : hasEOI (a :: b :: l) = false) : ¬(a = 255 ∧ b = 217) := by
  simp only [hasEOI, Bool.or_eq_false_iff, Bool.and_eq_false_iff, beq_eq_false_iff_ne,
    ne_eq] at h
  rcases h.1 with h1 | h1 <;> exact fun hc => h1 (by simp [hc.1, hc.2])

theorem hasSOI_append_right : ∀ {xs ys : List Nat},
    hasSOI (xs ++ ys) = false → hasSOI ys = false := by
  intro xs
  induction xs with
  | nil => intro ys h; exact h
  | cons a t ih => intro ys h; exact ih (hasSOI_cons h)

theorem hasSOI_append_left : ∀ {xs ys : List Nat},
    hasSOI (xs ++ ys) = false → hasSOI xs = false := by
  intro xs
  induction xs with
  | nil => intro ys _; rfl
  | cons a t ih =>
    intro ys h
    cases t with
    | nil => rfl
    | cons b t2 =>
      simp only [List.cons_append, hasSOI, Bool.or_eq_false_iff] at h
      simp only [hasSOI, Bool.or_eq_false_iff]
      exact ⟨h.1, ih (by simpa using h.2)⟩

theorem camTaskScan_noSOI : ∀ {c : List Nat} {fb : List Nat},
    hasSOI c = false → camTaskScan c ⟨false, fb⟩ = (⟨false, fb⟩, []) := by
  intro c
  induction c with
  | nil => intro fb _; rfl
  | cons a t ih =>
    intro fb h
    cases t with
    | nil => simp [camTaskScan]
    | cons b t2 =>
      have hp := hasSOI_not_pair h
      simp only [camTaskScan, Bool.false_eq_true, if_false, if_neg hp]
      exact ih (hasSOI_cons h)

theorem pushByte_events {a : Nat} {fb : List Nat} {e : CamEvent}
    (he : e ∈ (pushByte a fb).2) : e = CamEvent.data (fb ++ [a]) := by
  simp only [pushByte] at he
  split at he <;> simp_all

theorem camTaskScan_noEOI : ∀ {c : List Nat} {fb : List Nat},
    hasEOI c = false →
    (camTaskScan c ⟨true, fb⟩).1.found_start = true ∧
    ∀ e ∈ (camTaskScan c ⟨true, fb⟩).2, ∃ bs, e = CamEvent.data bs := by
  intro c
  induction c with
  | nil => intro fb _; exact ⟨rfl, by intro e he; simp [camTaskScan] at he⟩
  | cons a t ih =>
    intro fb h
    cases t with
    | nil =>
      refine ⟨rfl, ?_⟩
      intro e he
      simp only [camTaskScan, if_true] at he
      exact ⟨_, pushByte_events he⟩
    | cons b t2 =>
      have hp := hasEOI_not_pair h
      have ih2 := @ih (pushByte a fb).1 (hasEOI_cons h)
      simp only [camTaskScan, if_true, if_neg hp]
      refine ⟨ih2.1, ?_⟩
      intro e he
      simp only [List.mem_append] at he
      rcases he with he | he
      · exact ⟨_, pushByte_events he⟩
      · exact ih2.2 e he

theorem runChunksCam_noSOI : ∀ {cs : List (List Nat)} {fb : List Nat},
    hasSOI cs.flatten = false → runChunksCam cs ⟨false, fb⟩ = (⟨false, fb⟩, []) := by
  intro cs
  induction cs with
  | nil => intro fb _; rfl
  | cons c cs2 ih =>
    intro fb h
    simp only [List.flatten_cons] at h
    have h1 := hasSOI_append_left h
    have h2 := hasSOI_append_right h
    simp [runChunksCam, camTaskScan_noSOI h1, ih h2]

theorem streamScan_noSOI {cap : Nat} : ∀ {c : List Nat} {buf : List Nat}
    {sends : List Bool}, hasSOI c = false →
    streamScan cap c ⟨false, buf⟩ sends = ScanOut.cont ⟨false, buf⟩ [] sends := by
  intro c
  induction c with
  | nil => intro buf sends _; rfl
  | cons a t ih =>
    intro buf sends h
    cases t with
    | nil => simp [streamScan]
    | cons b t2 =>
      have hp := hasSOI_not_pair h
      simp only [streamScan, Bool.false_eq_true, if_false, if_neg hp]
      exact ih (hasSOI_cons h)

theorem prepend_stillInFrame {o : List (List Nat)} {r : ScanOut}
    (h : r.stillInFrame) : (r.prepend o).stillInFrame := by
  cases r <;> simpa [ScanOut.prepend, ScanOut.stillInFrame] using h

theorem prepend_inBounds {cap : Nat} {o : List (List Nat)} {r : ScanOut}
    (h : r.inBounds cap) : (r.prepend o).inBounds cap := by
  cases r <;> simpa [ScanOut.prepend, ScanOut.inBounds] using h

theorem prepend_presInv {o : List (List Nat)} {r : ScanOut}
    (h : r.presInv) : (r.prepend o).presInv := by
  cases r <;> simpa [ScanOut.prepend, ScanOut.presInv] using h

theorem streamData_cases (cap a : Nat) (st : SState) (sends : List Bool) :
    (∃ buf2 outs sends2,
      streamData cap a st sends = ScanOut.cont ⟨st.found_start, buf2⟩ outs sends2) ∨
    (∃ buf2 outs sends2,
      streamData cap a st sends = ScanOut.exit ⟨st.found_start, buf2⟩ outs sends2) := by
  simp only [streamData]
  split_ifs
  all_goals first
    | exact Or.inl ⟨_, _, _, rfl⟩
    | exact Or.inr ⟨_, _, _, rfl⟩

theorem streamData_inBounds {cap : Nat} (a : Nat) (st : SState) (sends : List Bool)
    (hcap : 2049 ≤ cap) (hlen : st.buf.length ≤ 2047) :
    (streamData cap a st sends).inBounds cap := by
  simp only [streamData]
  split_ifs
  all_goals simp only [ScanOut.inBounds]
  all_goals simp_all
  all_goals omega

theorem streamScan_noEOI {cap : Nat} : ∀ {c : List Nat} {st : SState}
    {sends : List Bool}, hasEOI c = false → st.found_start = true →
    (streamScan cap c st sends).stillInFrame := by
  intro c
  induction c with
  | nil =>
    intro st sends _ hst
    simpa [streamScan, ScanOut.stillInFrame] using hst
  | cons a t ih =>
    intro st sends h hst
    cases t with
    | nil =>
      simp only [streamScan, hst, if_true]
      rcases streamData_cases cap a st sends with ⟨b2, o2, s2, heq⟩ | ⟨b2, o2, s2, heq⟩ <;>
        simp [heq, ScanOut.stillInFrame, hst]
    | cons b t2 =>
      have hp := hasEOI_not_pair h
      have h2 := hasEOI_cons h
      simp only [streamScan, hst, if_true, if_neg hp]
      rcases streamData_cases cap a st sends with ⟨b2, o2, s2, heq⟩ | ⟨b2, o2, s2, heq⟩
      · rw [heq]
        exact prepend_stillInFrame (ih h2 (by simpa using hst))
      · rw [heq]
        simpa [ScanOut.stillInFrame] using hst

theorem streamScan_inBounds {cap : Nat} (hcap : 2049 ≤ cap) :
    ∀ (c : List Nat) (st : SState) (sends : List Bool),
    st.buf.length ≤ 2047 → (streamScan cap c st sends).inBounds cap := by
  intro c st sends
  induction c, st, sends using streamScan.induct cap with
  | case1 st sends =>
    intro hlen
    simpa [streamScan, ScanOut.inBounds] using hlen
  | case2 a st sends hfs =>
    intro hlen
    simp only [streamScan, hfs, if_true]
    exact streamData_inBounds a st sends hcap hlen
  | case3 a st sends hfs =>
    intro hlen
    simp only [streamScan, hfs, if_false, Bool.false_eq_true]
    simpa [ScanOut.inBounds] using hlen
  | case4 a b rest st sends hfs hmark h1 h2 s hs ih =>
    intro hlen
    simp only [streamScan, hfs, if_true, if_pos hmark, if_pos h1, if_pos h2,
      if_pos (show (takeSend sends).1 = true from hs)]
    exact prepend_inBounds (ih (by simp))
  | case5 a b rest st sends hfs hmark h1 h2 s hs =>
    intro hlen
    simp only [streamScan, hfs, if_true, if_pos hmark, if_pos h1, if_pos h2,
      if_neg (show ¬(takeSend sends).1 = true from hs), ScanOut.inBounds]
    simp
    omega
  | case6 a b rest st sends hfs hmark h1 h2 =>
    intro hlen
    exact absurd (by omega : st.buf.length + 1 < cap) h2
  | case7 a b rest st sends hfs hmark h1 =>
    intro hlen
    exact absurd (by omega : st.buf.length < cap) h1
  | case8 a b rest st sends hfs hmark st2 outs s2 heq ih =>
    intro hlen
    have hb := streamData_inBounds a st sends hcap hlen
    rw [heq] at hb
    simp only [streamScan, hfs, if_true, if_neg hmark, heq]
    exact prepend_inBounds (ih hb)
  | case9 a b rest st sends hfs hmark hnc =>
    intro hlen
    have hb := streamData_inBounds a st sends hcap hlen
    rcases streamData_cases cap a st sends with ⟨b2, o2, s2, heq⟩ | ⟨b2, o2, s2, heq⟩
    · exact absurd heq (by intro h; exact hnc _ _ _ h)
    · rw [heq] at hb
      simp only [streamScan, hfs, if_true, if_neg hmark, heq]
      exact hb
  | case10 a b rest st sends hfs hmark h0 h1 ih =>
    intro hlen
    simp only [streamScan, hfs, Bool.false_eq_true, if_false, if_pos hmark,
      if_pos h0, if_pos h1]
    exact ih (by simp)
  | case11 a b rest st sends hfs hmark h0 h1 =>
    intro hlen
    exact absurd (by omega : 1 < cap) h1
  | case12 a b rest st sends hfs hmark h0 =>
    intro hlen
    exact absurd (by omega : 0 < cap) h0
  | case13 a b rest st sends hfs hmark ih =>
    intro hlen
    simp only [streamScan, hfs, Bool.false_eq_true, if_false, if_neg hmark]
    exact ih hlen

theorem streamData_cont_found {cap a : Nat} {st : SState} {sends : List Bool}
    {st2 : SState} {outs : List (List Nat)} {s2 : List Bool}
    (h : streamData cap a st sends = ScanOut.cont st2 outs s2) :
    st2.found_start = st.found_start := by
  rcases streamData_cases cap a st sends with ⟨b2, o2, sd2, heq⟩ | ⟨b2, o2, sd2, heq⟩ <;>
    rw [heq] at h <;> cases h <;> rfl

theorem camTaskScan_presInv : ∀ (c : List Nat) (st : CamState),
    CamInv st → CamInv (camTaskScan c st).1 := by
  intro c st
  induction c, st using camTaskScan.induct with
  | case1 st => exact fun h => h
  | case2 a st hfs =>
    intro _
    simp only [camTaskScan, hfs, if_true]
    intro hcontra
    simp at hcontra
  | case3 a st hfs =>
    intro h
    simpa [camTaskScan, hfs] using h
  | case4 a b rest st hfs hmark ih =>
    intro _
    simp only [camTaskScan, hfs, if_true, if_pos hmark]
    exact ih (fun _ => rfl)
  | case5 a b rest st hfs hmark p ih =>
    intro _
    simp only [camTaskScan, hfs, if_true, if_neg hmark]
    exact ih (by intro hcontra; simp at hcontra)
  | case6 a b rest st hfs hmark ih =>
    intro _
    simp only [camTaskScan, hfs, Bool.false_eq_true, if_false, if_pos hmark]
    exact ih (by intro hcontra; simp at hcontra)
  | case7 a b rest st hfs hmark ih =>
    intro h
    simp only [camTaskScan, hfs, Bool.false_eq_true, if_false, if_neg hmark]
    exact ih h

theorem streamScan_presInv {cap : Nat} : ∀ (c : List Nat) (st : SState)
    (sends : List Bool), SInv st → (streamScan cap c st sends).presInv := by
  intro c st sends
  induction c, st, sends using streamScan.induct cap with
  | case1 st sends => exact fun h => by simpa [streamScan, ScanOut.presInv] using h
  | case2 a st sends hfs =>
    intro _
    simp only [streamScan, hfs, if_true]
    rcases streamData_cases cap a st sends with ⟨b2, o2, s2, heq⟩ | ⟨b2, o2, s2, heq⟩ <;>
      rw [heq] <;> simp [ScanOut.presInv, SInv, hfs]
  | case3 a st sends hfs =>
    intro h
    simp only [streamScan, hfs, Bool.false_eq_true, if_false]
    exact h
  | case4 a b rest st sends hfs hmark h1 h2 s hs ih =>
    intro _
    simp only [streamScan, hfs, if_true, if_pos hmark, if_pos h1, if_pos h2,
      if_pos (show (takeSend sends).1 = true from hs)]
    exact prepend_presInv (ih (fun _ => rfl))
  | case5 a b rest st sends hfs hmark h1 h2 s hs =>
    intro _
    simp only [streamScan, hfs, if_true, if_pos hmark, if_pos h1, if_pos h2,
      if_neg (show ¬(takeSend sends).1 = true from hs)]
    simp [ScanOut.presInv, SInv]
  | case6 a b rest st sends hfs hmark h1 h2 =>
    intro _
    simp only [streamScan, hfs, if_true, if_pos hmark, if_pos h1, if_neg h2]
    simp [ScanOut.presInv, SInv]
  | case7 a b rest st sends hfs hmark h1 =>
    intro _
    simp only [streamScan, hfs, if_true, if_pos hmark, if_neg h1]
    simp [ScanOut.presInv, SInv]
  | case8 a b rest st sends hfs hmark st2 outs s2 heq ih =>
    intro _
    have hf2 : st2.found_start = true := by rw [streamData_cont_found heq, hfs]
    simp only [streamScan, hfs, if_true, if_neg hmark, heq]
    exact prepend_presInv (ih (by intro hcontra; rw [hf2] at hcontra; simp at hcontra))
  | case9 a b rest st sends hfs hmark hnc =>
    intro _
    rcases streamData_cases cap a st sends with ⟨b2, o2, s2, heq⟩ | ⟨b2, o2, s2, heq⟩
    · exact absurd heq (by intro h; exact hnc _ _ _ h)
    · simp only [streamScan, hfs, if_true, if_neg hmark, heq]
      simp [ScanOut.presInv, SInv, hfs]
  | case10 a b rest st sends hfs hmark h0 h1 ih =>
    intro _
    simp only [streamScan, hfs, Bool.false_eq_true, if_false, if_pos hmark,
      if_pos h0, if_pos h1]
    exact ih (by intro hcontra; simp at hcontra)
  | case11 a b rest st sends hfs hmark h0 h1 =>
    intro _
    simp only [streamScan, hfs, Bool.false_eq_true, if_false, if_pos hmark,
      if_pos h0, if_neg h1]
    simp [ScanOut.presInv, SInv]
  | case12 a b rest st sends hfs hmark h0 =>
    intro _
    simp only [streamScan, hfs, Bool.false_eq_true, if_false, if_pos hmark,
      if_neg h0]
    simp [ScanOut.presInv, SInv]
  | case13 a b rest st sends hfs hmark ih =>
    intro h
    simp only [streamScan, hfs, Bool.false_eq_true, if_false, if_neg hmark]
    exact ih h

theorem boundaryOk_nil {ys : List Nat} : boundaryOk [] ys = true := by
  simp [boundaryOk]

theorem boundaryOk_tail {x : Nat} {l ys : List Nat}
    (h : boundaryOk (x :: l) ys = true) : boundaryOk l ys = true := by
  cases l with
  | nil => exact boundaryOk_nil
  | cons y l2 =>
    simpa only [boundaryOk, List.getLast?_cons_cons] using h

theorem boundaryOk_single {a y : Nat} {ys2 : List Nat}
    (h : boundaryOk [a] (y :: ys2) = true) :
    ¬(a = 255 ∧ y = 216) ∧ ¬(a = 255 ∧ y = 217) := by
  simp only [boundaryOk, List.getLast?_singleton, List.head?_cons,
    Bool.not_eq_eq_eq_not, Bool.not_true, Bool.and_eq_false_iff,
    Bool.or_eq_false_iff, beq_eq_false_iff_ne, ne_eq, Option.some.injEq] at h
  rcases h with h | ⟨h1, h2⟩
  · exact ⟨fun hc => h hc.1, fun hc => h hc.1⟩
  · exact ⟨fun hc => h1 hc.2, fun hc => h2 hc.2⟩

theorem camTaskScan_append (ys : List Nat) : ∀ (xs : List Nat) (st : CamState),
    boundaryOk xs ys = true →
    camTaskScan (xs ++ ys) st =
      ((camTaskScan ys (camTaskScan xs st).1).1,
       (camTaskScan xs st).2 ++ (camTaskScan ys (camTaskScan xs st).1).2) := by
  intro xs st
  induction xs, st using camTaskScan.induct with
  | case1 st =>
    intro _
    simp [camTaskScan]
  | case2 a st hfs =>
    intro h
    cases ys with
    | nil => simp [camTaskScan, hfs]
    | cons y ys2 =>
      have hnp := (boundaryOk_single h).2
      simp only [List.singleton_append, camTaskScan, hfs, if_true, if_neg hnp]
  | case3 a st hfs =>
    intro h
    cases ys with
    | nil => simp [camTaskScan, hfs]
    | cons y ys2 =>
      have hnp := (boundaryOk_single h).1
      simp only [List.singleton_append, camTaskScan, hfs, Bool.false_eq_true,
        if_false, if_neg hnp]
      simp
  | case4 a b rest st hfs hmark ih =>
    intro h
    have ihr := ih (boundaryOk_tail (boundaryOk_tail h))
    simp only [List.cons_append, camTaskScan, hfs, if_true, if_pos hmark,
      List.append_eq]
    rw [ihr]
    simp [List.append_assoc]
  | case5 a b rest st hfs hmark p ih =>
    intro h
    have ihr := ih (boundaryOk_tail h)
    rw [show p = pushByte a st.frame_buffer from rfl] at ihr
    simp only [List.cons_append, camTaskScan, hfs, if_true, if_neg hmark,
      List.append_eq]
    rw [show (b :: rest) ++ ys = b :: (rest ++ ys) from rfl] at ihr
    rw [ihr]
    simp [List.append_assoc]
  | case6 a b rest st hfs hmark ih =>
    intro h
    have ihr := ih (boundaryOk_tail (boundaryOk_tail h))
    simp only [List.cons_append, camTaskScan, hfs, Bool.false_eq_true, if_false,
      if_pos hmark, List.append_eq]
    rw [ihr]
  | case7 a b rest st hfs hmark ih =>
    intro h
    have ihr := ih (boundaryOk_tail h)
    simp only [List.cons_append, camTaskScan, hfs, Bool.false_eq_true, if_false,
      if_neg hmark, List.append_eq]
    rw [show (b :: rest) ++ ys = b :: (rest ++ ys) from rfl] at ihr
    rw [ihr]

theorem runChunksCam_flatten : ∀ (cs : List (List Nat)) (st : CamState),
    noStraddle cs = true → runChunksCam cs st = camTaskScan cs.flatten st := by
  intro cs
  induction cs with
  | nil => intro st _; rfl
  | cons c cs2 ih =>
    intro st h
    simp only [noStraddle, Bool.and_eq_true] at h
    simp only [List.flatten_cons, runChunksCam]
    rw [camTaskScan_append cs2.flatten c st h.1, ih _ h.2]

theorem framesGo_spec : ∀ (n : Nat) (xs : List Nat), xs.length ≤ n →
    (∀ (acc : List Nat) (fb : List Nat),
      framesGo false acc (camTaskScan xs ⟨false, fb⟩).2 = specFrames xs) ∧
    (∀ (acc : List Nat) (fb : List Nat),
      framesGo true acc (camTaskScan xs ⟨true, fb⟩).2 = specCollect xs (acc ++ fb)) := by
  intro n
  induction n with
  | zero =>
    intro xs hlen
    rw [List.length_eq_zero.mp (Nat.le_zero.mp hlen)]
    exact ⟨fun acc fb => by simp [camTaskScan, framesGo, specFrames],
           fun acc fb => by simp [camTaskScan, framesGo, specCollect]⟩
  | succ n ih =>
    intro xs hlen
    match xs with
    | [] =>
      exact ⟨fun acc fb => by simp [camTaskScan, framesGo, specFrames],
             fun acc fb => by simp [camTaskScan, framesGo, specCollect]⟩
    | [a] =>
      constructor
      · intro acc fb
        simp [camTaskScan, framesGo, specFrames]
      · intro acc fb
        simp only [camTaskScan, if_true, pushByte, specCollect]
        split <;> simp [framesGo]
    | a :: b :: rest =>
      have hr : rest.length ≤ n := by
        simp only [List.length_cons] at hlen; omega
      have hbr : (b :: rest).length ≤ n := by
        simp only [List.length_cons] at hlen ⊢; omega
      constructor
      · intro acc fb
        by_cases hm : a = 255 ∧ b = 216
        · simp only [camTaskScan, Bool.false_eq_true, if_false, if_pos hm,
            framesGo, specFrames]
          simpa using (ih rest hr).2 [] [255, 216]
        · simp only [camTaskScan, Bool.false_eq_true, if_false, if_neg hm]
          rw [specFrames, if_neg hm]
          exact (ih (b :: rest) hbr).1 acc fb
      · intro acc fb
        by_cases hm : a = 255 ∧ b = 217
        · have hne : fb ++ [255, 217] ≠ [] := by simp
          simp only [camTaskScan, if_true, if_pos hm, if_neg hne, framesGo,
            List.append_eq, List.nil_append]
          rw [specCollect, if_pos hm]
          rw [(ih rest hr).1 [] []]
          simp [List.append_assoc]
        · simp only [camTaskScan, if_true, if_neg hm]
          rw [specCollect, if_neg hm]
          rcases Nat.lt_or_ge (fb ++ [a]).length 2048 with hc | hc
          · simp only [pushByte, if_neg (Nat.not_le.mpr hc), framesGo,
              List.append_eq, List.nil_append]
            rw [(ih (b :: rest) hbr).2 acc (fb ++ [a])]
            simp [List.append_assoc]
          · simp only [pushByte, if_pos hc, framesGo, List.append_eq,
              List.nil_append]
            rw [(ih (b :: rest) hbr).2 (acc ++ (fb ++ [a])) []]
            simp [List.append_assoc]

theorem skipPeeks_segment : ∀ {s r : List (List Nat × Bool)},
    isSegment s = true → skipPeeks (s ++ r) = some r := by
  intro s
  induction s with
  | nil => intro r h; simp [isSegment] at h
  | cons p t ih =>
    intro r h
    obtain ⟨d, e⟩ := p
    cases t with
    | nil =>
      simp only [isSegment] at h
      simp [skipPeeks, h]
    | cons p2 t2 =>
      simp only [isSegment, Bool.and_eq_true, Bool.not_eq_true'] at h
      simp only [List.cons_append, skipPeeks, h.1, Bool.false_eq_true, if_false]
      exact ih h.2

theorem parseDec_aux (l : List Nat) : ∀ (acc : Nat),
    List.foldl (fun a d => a * 10 + (d - 48)) acc
      (l.reverse.map (fun d => d + 48)) =
      acc * 10 ^ l.length + Nat.ofDigits 10 l := by
  induction l with
  | nil => intro acc; simp [Nat.ofDigits]
  | cons x xs ih =>
    intro acc
    simp only [List.reverse_cons, List.map_append, List.map_cons, List.map_nil,
      List.foldl_append, List.foldl_cons, List.foldl_nil, ih acc]
    simp only [Nat.ofDigits_cons, List.length_cons, pow_succ,
      Nat.add_sub_cancel]
    push_cast
    ring

theorem parseDec_decAscii (n : Nat) : parseDec (decAscii n) = n := by
  unfold decAscii parseDec
  split
  · simp only [List.foldl_cons, List.foldl_nil]
    omega
  · rw [parseDec_aux]
    rw [Nat.ofDigits_digits]
    simp

theorem decAscii_digit_range (n : Nat) : ∀ b ∈ decAscii n, 48 ≤ b ∧ b ≤ 57 := by
  intro b hb
  unfold decAscii at hb
  split at hb
  · simp at hb
    omega
  · simp only [List.mem_map, List.mem_reverse] at hb
    obtain ⟨d, hd, rfl⟩ := hb
    have hlt : d < 10 := Nat.digits_lt_base (by norm_num) hd
    omega

theorem camTaskScan_cons_skip {a : Nat} (hne : a ≠ 255) :
    ∀ (ys : List Nat) (st : CamState), st.found_start = false →
    camTaskScan (a :: ys) st = camTaskScan ys st := by
  intro ys st hfs
  cases ys with
  | nil => simp [camTaskScan, hfs]
  | cons y ys2 =>
    have hnp : ¬(a = 255 ∧ y = 216) := fun hc => hne hc.1
    simp [camTaskScan, hfs, if_neg hnp]

theorem streamScan_cons_skip {cap : Nat} {a : Nat} (hne : a ≠ 255) :
    ∀ (ys : List Nat) (buf : List Nat) (sends : List Bool),
    streamScan cap (a :: ys) ⟨false, buf⟩ sends =
      streamScan cap ys ⟨false, buf⟩ sends := by
  intro ys buf sends
  cases ys with
  | nil => simp [streamScan]
  | cons y ys2 =>
    have hnp : ¬(a = 255 ∧ y = 216) := fun hc => hne hc.1
    simp [streamScan, if_neg hnp]

/-!
Section: Claim theorems
-/

/-- C1: every exit path of the `stream_camera` session loop (camera receive
error, chunk or frame send failure) returns the Camera and DmaRxStreamBuf
pair it was given to the caller: whenever the session ends with a `ret`
outcome, the returned pair is exactly the pair the session started with,
and the single function return is the only way the pair reaches the
caller. -/
theorem c1_handle_returned_on_every_exit (cap : Nat) (sched : List BurstIn)
    (cam buf : Nat) (st : SState) (sends : List Bool) (c b : Nat)
    (h : streamSession cap sched cam buf st sends = SessOut.ret c b) :
    c = cam ∧ b = buf := by
  induction sched generalizing st sends with
  | nil => simp [streamSession] at h
  | cons bi rest ih =>
    cases bi with
    | recvErr =>
      simp only [streamSession, SessOut.ret.injEq] at h
      exact ⟨h.1.symm, h.2.symm⟩
    | ok peeks =>
      simp only [streamSession] at h
      cases hb : streamBurst cap peeks st sends with
      | stuck o => rw [hb] at h; simp at h
      | panicMain o => rw [hb] at h; simp at h
      | exited o =>
        rw [hb] at h
        simp only [SessOut.ret.injEq] at h
        exact ⟨h.1.symm, h.2.symm⟩
      | eofDone st2 s2 o =>
        rw [hb] at h
        exact ih st2 s2 h

/-- Witness for C1: a session whose first burst fails with a hardware
receive error returns exactly the camera and buffer tokens it was given. -/
theorem c1_witness :
    streamSession 16384 [BurstIn.recvErr] 3 5 ⟨false, []⟩ [] = SessOut.ret 3 5 ∧
    (3 = 3 ∧ 5 = 5) :=
  ⟨rfl, c1_handle_returned_on_every_exit 16384 [BurstIn.recvErr] 3 5 ⟨false, []⟩
    [] 3 5 rfl⟩

/-- C2 counterexample: the chunk delivery `[0xFF]`, `[0xD8, 0xFF, 0xD9]`
concatenates to a stream holding one well-formed marker pair (the spec
reference extraction finds exactly the frame `FF D8 FF D9`), yet the frame
assembler emits zero completed frames, because the start marker straddles
the chunk boundary. -/
theorem c2_counterexample :
    specFrames ([[255], [216, 255, 217]].flatten) = [[255, 216, 255, 217]] ∧
    framesOfEvents (runChunksCam [[255], [216, 255, 217]] ⟨false, []⟩).2 = [] := by
  constructor
  · show specFrames [255, 216, 255, 217] = [[255, 216, 255, 217]]
    simp [specFrames, specCollect]
  · decide

/-- C2 (amended): provided no chunk boundary splits a two-byte marker
(whenever a chunk ends with 0xFF the next delivered byte is not 0xD8 or
0xD9), the frame assembler starting from `found_start = false` with an
empty buffer emits exactly one completed frame per complete marker pair of
the concatenated stream, and each frame consists of exactly the bytes from
its start marker through its end marker inclusive - the frames recovered
from the event stream equal the reference extraction on the flat byte
stream. -/
theorem c2_frames_match_marker_pairs (cs : List (List Nat))
    (h : noStraddle cs = true) :
    framesOfEvents (runChunksCam cs ⟨false, []⟩).2 = specFrames cs.flatten := by
  rw [runChunksCam_flatten cs _ h]
  exact (framesGo_spec cs.flatten.length cs.flatten le_rfl).1 [] []

/-- Witness for C2: the spec scenario - chunks
`[0xAA, 0xFF, 0xD8, 0x11, 0x22]` then `[0x33, 0xFF, 0xD9, 0xBB]` produce
exactly one completed frame `[0xFF, 0xD8, 0x11, 0x22, 0x33, 0xFF, 0xD9]`. -/
theorem c2_witness :
    noStraddle [[170, 255, 216, 17, 34], [51, 255, 217, 187]] = true ∧
    framesOfEvents
      (runChunksCam [[170, 255, 216, 17, 34], [51, 255, 217, 187]] ⟨false, []⟩).2 =
      [[255, 216, 17, 34, 51, 255, 217]] := by
  refine ⟨by decide, ?_⟩
  rw [c2_frames_match_marker_pairs _ (by decide)]
  show specFrames [170, 255, 216, 17, 34, 51, 255, 217, 187] = _
  simp [specFrames, specCollect]

/-- C3: evaluating `stream_camera` at the spec scenario (capacity 4, chunk
`[0xFF, 0xD8, 1, 2, 3, 0xFF, 0xD9]`): the overflow branch drops single
bytes but leaves `found_start = true` and the cursor at the capacity, so
the unguarded end-marker write at `frame_buffer[4]` indexes out of bounds
(a Rust panic).  No frame is emitted, but the parser state is not reset
and the session does not continue, contradicting the claimed
discard-reset-resynchronize behavior. -/
theorem c3_overflow_panics_not_resets :
    streamScan 4 [255, 216, 1, 2, 3, 255, 217] ⟨false, []⟩ [] =
      ScanOut.panic ⟨true, [255, 216, 1, 2]⟩ [] := by decide

/-- C4: with the session buffer capacity of the spec (tens of kilobytes,
so at least 2049), every frame-buffer write of the `stream_camera`
assembler is in bounds - the scan never reaches the out-of-bounds `panic`
outcome, in particular the two unguarded end-marker writes stay below the
capacity - and the cursor `buf_len` satisfies `0 <= buf_len <= cap`
throughout: a continuing scan keeps it at or below 2047 and an early-exit
state keeps it at or below the capacity. -/
theorem c4_writes_in_bounds (cap : Nat) (hcap : 2049 ≤ cap) (c : List Nat)
    (st : SState) (sends : List Bool) (hlen : st.buf.length ≤ 2047) :
    (streamScan cap c st sends).inBounds cap ∧
    ∀ st2 outs s2, streamScan cap c st sends = ScanOut.cont st2 outs s2 →
      st2.buf_len ≤ cap := by
  have hb := streamScan_inBounds hcap c st sends hlen
  refine ⟨hb, ?_⟩
  intro st2 outs s2 heq
  rw [heq] at hb
  simp only [ScanOut.inBounds] at hb
  exact le_trans hb (by omega)

/-- Witness for C4: capacity 16384 on a start marker followed by data. -/
theorem c4_witness :
    2049 ≤ 16384 ∧ (SState.mk false []).buf.length ≤ 2047 ∧
    ((streamScan 16384 [255, 216, 7, 255, 217] ⟨false, []⟩ []).inBounds 16384 ∧
     ∀ st2 outs s2,
       streamScan 16384 [255, 216, 7, 255, 217] ⟨false, []⟩ [] =
         ScanOut.cont st2 outs s2 → st2.buf_len ≤ 16384) :=
  ⟨by decide, by decide,
   c4_writes_in_bounds 16384 (by decide) [255, 216, 7, 255, 217] ⟨false, []⟩ []
     (by decide)⟩

/-- C5: the parser-state predicate (`in_frame = false` implies cursor 0)
holds in the initial state of both pipeline variants and is preserved by
the processing of every chunk from every state satisfying it, in both
variants (for the socket variant, across all three scan outcomes). -/
theorem c5_parser_invariant :
    CamInv ⟨false, []⟩ ∧ SInv ⟨false, []⟩ ∧
    (∀ (c : List Nat) (st : CamState), CamInv st →
      CamInv (camTaskScan c st).1) ∧
    (∀ (cap : Nat) (c : List Nat) (st : SState) (sends : List Bool),
      SInv st → (streamScan cap c st sends).presInv) :=
  ⟨fun _ => rfl, fun _ => rfl, camTaskScan_presInv,
   fun _ c st sends h => streamScan_presInv c st sends h⟩

/-- Witness for C5: the invariant is preserved through a complete frame on
a concrete chunk. -/
theorem c5_witness :
    CamInv (camTaskScan [255, 216, 7, 255, 217] ⟨false, []⟩).1 ∧
    (streamScan 16384 [255, 216, 7, 255, 217] ⟨false, []⟩ []).presInv :=
  ⟨c5_parser_invariant.2.2.1 [255, 216, 7, 255, 217] ⟨false, []⟩ (fun _ => rfl),
   c5_parser_invariant.2.2.2 16384 [255, 216, 7, 255, 217] ⟨false, []⟩ []
     (fun _ => rfl)⟩

/-- C6: an input with no adjacent 0xFF 0xD8 pair is a no-op for the frame
assembler started outside a frame with cursor 0: no event and no
`on_chunk` payload is emitted, the state is returned unchanged (cursor
still 0), in both pipeline variants - for the channel variant over any
chunked delivery of the garbage bytes. -/
theorem c6_garbage_is_noop :
    (∀ cs : List (List Nat), hasSOI cs.flatten = false →
      runChunksCam cs ⟨false, []⟩ = (⟨false, []⟩, [])) ∧
    (∀ (cap : Nat) (c : List Nat) (sends : List Bool), hasSOI c = false →
      streamScan cap c ⟨false, []⟩ sends = ScanOut.cont ⟨false, []⟩ [] sends) :=
  ⟨fun _ h => runChunksCam_noSOI h, fun _ _ sends h => streamScan_noSOI h⟩

/-- Witness for C6: garbage bytes with 0xFF and 0xD8 present but never
adjacent in that order. -/
theorem c6_witness :
    hasSOI [[1, 255], [255, 2, 216]].flatten = false ∧
    runChunksCam [[1, 255], [255, 2, 216]] ⟨false, []⟩ = (⟨false, []⟩, []) ∧
    streamScan 16384 [1, 255, 255, 2, 216] ⟨false, []⟩ [] =
      ScanOut.cont ⟨false, []⟩ [] [] :=
  ⟨by decide,
   c6_garbage_is_noop.1 [[1, 255], [255, 2, 216]] (by decide),
   c6_garbage_is_noop.2 16384 [1, 255, 255, 2, 216] [] (by decide)⟩

/-- C7: a two-byte marker whose bytes straddle a chunk boundary is not
recognized in that pass, in either pipeline variant.  Start marker: a
chunk ending in 0xFF (with no in-chunk start marker) followed by a chunk
beginning with 0xD8 behaves exactly as if the first chunk and the
boundary 0xD8 were absent - no frame starts at the boundary.  End marker:
from inside a frame, a chunk ending in 0xFF (with no in-chunk end marker)
followed by the byte 0xD9 leaves the parser still inside the frame - no
frame is completed at the boundary (the channel variant emits at most
`Data` flushes, never a `FrameEnd`). -/
theorem c7_straddled_marker_not_recognized :
    (∀ (xs ys : List Nat), hasSOI (xs ++ [255]) = false →
      runChunksCam [xs ++ [255], 216 :: ys] ⟨false, []⟩ =
        camTaskScan ys ⟨false, []⟩) ∧
    (∀ (xs fb : List Nat), hasEOI (xs ++ [255]) = false →
      (runChunksCam [xs ++ [255], [217]] ⟨true, fb⟩).1.found_start = true ∧
      ∀ e ∈ (runChunksCam [xs ++ [255], [217]] ⟨true, fb⟩).2,
        ∃ bs, e = CamEvent.data bs) ∧
    (∀ (cap : Nat) (xs ys buf : List Nat) (sends : List Bool),
      hasSOI (xs ++ [255]) = false →
      streamScan cap (xs ++ [255]) ⟨false, buf⟩ sends =
        ScanOut.cont ⟨false, buf⟩ [] sends ∧
      streamScan cap (216 :: ys) ⟨false, buf⟩ sends =
        streamScan cap ys ⟨false, buf⟩ sends) ∧
    (∀ (cap : Nat) (xs : List Nat) (st : SState) (sends : List Bool),
      hasEOI (xs ++ [255]) = false → st.found_start = true →
      (streamScan cap (xs ++ [255]) st sends).stillInFrame) := by
  refine ⟨?_, ?_, ?_, ?_⟩
  · intro xs ys h
    simp only [runChunksCam, camTaskScan_noSOI h]
    rw [camTaskScan_cons_skip (by decide) ys ⟨false, []⟩ rfl]
    simp
  · intro xs fb h
    have h1 := @camTaskScan_noEOI (xs ++ [255]) fb h
    constructor
    · simp [runChunksCam, camTaskScan, h1.1]
    · intro e he
      simp only [runChunksCam, List.append_nil, List.mem_append] at he
      rcases he with he | he
      · exact h1.2 e he
      · have he2 : e ∈ (pushByte 217
            (camTaskScan (xs ++ [255]) ⟨true, fb⟩).1.frame_buffer).2 := by
          simpa [camTaskScan, h1.1] using he
        exact ⟨_, pushByte_events he2⟩
  · intro cap xs ys buf sends h
    exact ⟨streamScan_noSOI h, streamScan_cons_skip (by decide) ys buf sends⟩
  · intro cap xs st sends h hfs
    exact streamScan_noEOI h hfs

/-- Witness for C7: concrete straddles - `[0xAA, 0xFF]` then
`[0xD8, 0xFF, 0xD9]` yields no frame in the channel variant, and a
`[0x07, 0xFF]` chunk inside a frame leaves the socket variant still in the
frame. -/
theorem c7_witness :
    hasSOI [170, 255] = false ∧ hasEOI [7, 255] = false ∧
    runChunksCam [[170, 255], [216, 255, 217]] ⟨false, []⟩ =
      camTaskScan [255, 217] ⟨false, []⟩ ∧
    (streamScan 16384 [7, 255] ⟨true, [255, 216]⟩ []).stillInFrame := by
  refine ⟨by decide, by decide, ?_, ?_⟩
  · exact (c7_straddled_marker_not_recognized.1 [170] [255, 217] (by decide))
  · exact c7_straddled_marker_not_recognized.2.2.2 16384 [7] ⟨true, [255, 216]⟩ []
      (by decide) rfl

/-- C8 (modelled from the spec, as `on_chunk` and the response-header
emission are absent from src/): for every completed frame of byte length
N, the multipart streamer emits, in order, the part header
`--frame CRLF Content-Type: image/jpeg CRLF Content-Length: <N> CRLF CRLF`
with N in decimal ASCII (digits 48..57 that parse back to exactly N), the
N frame bytes verbatim, then CRLF; and the output of a session opens with the
200 OK response header (multipart/x-mixed-replace; boundary=frame,
Cache-Control: no-cache, Connection: keep-alive, blank line) emitted once
before the first frame part. -/
theorem c8_multipart_wire_format :
    (∀ frame : List Nat, framePart frame =
      asciiBytes "--frame\r\nContent-Type: image/jpeg\r\nContent-Length: " ++
        decAscii frame.length ++ asciiBytes "\r\n\r\n" ++ frame ++ [13, 10]) ∧
    (∀ n : Nat, parseDec (decAscii n) = n) ∧
    (∀ n : Nat, ∀ b ∈ decAscii n, 48 ≤ b ∧ b ≤ 57) ∧
    (∀ frames : List (List Nat),
      sessionBytes frames = responseHeader ++ (frames.map framePart).flatten) := by
  refine ⟨?_, parseDec_decAscii, decAscii_digit_range, fun frames => rfl⟩
  intro frame
  simp [framePart, partHeader, List.append_assoc]

/-- Witness for C8: a four-byte frame, and the digit list of 7. -/
theorem c8_witness :
    framePart [255, 216, 255, 217] =
      asciiBytes "--frame\r\nContent-Type: image/jpeg\r\nContent-Length: " ++
        decAscii ([255, 216, 255, 217] : List Nat).length ++
        asciiBytes "\r\n\r\n" ++ [255, 216, 255, 217] ++ [13, 10] ∧
    parseDec (decAscii 7) = 7 ∧ (55 ∈ decAscii 7 ∧ 48 ≤ 55 ∧ 55 ≤ 57) := by
  refine ⟨c8_multipart_wire_format.1 [255, 216, 255, 217],
    c8_multipart_wire_format.2.1 7, ?_⟩
  have hd : decAscii 7 = [55] := by
    unfold decAscii
    rw [if_neg (by norm_num)]
    rw [Nat.digits_def' (by norm_num : (1:ℕ) < 10) (by norm_num : (0:ℕ) < 7)]
    norm_num
  have hm : 55 ∈ decAscii 7 := by rw [hd]; exact List.mem_singleton.mpr rfl
  exact ⟨hm, c8_multipart_wire_format.2.2.1 7 55 hm⟩

/-- C9: at the start of every burst, both pipeline variants run the two
dummy skip loops first: for a peek schedule made of two complete transfer
segments followed by anything, the burst processing equals the main loop
run on the remainder alone - the bytes of the two dummy segments never
reach the scanner and so never contribute to any frame or payload. -/
theorem c9_dummy_transfers_discarded :
    (∀ (s1 s2 rest : List (List Nat × Bool)) (st : CamState),
      isSegment s1 = true → isSegment s2 = true →
      camBurst (s1 ++ s2 ++ rest) st = camMain rest st) ∧
    (∀ (cap : Nat) (s1 s2 rest : List (List Nat × Bool)) (st : SState)
      (sends : List Bool), isSegment s1 = true → isSegment s2 = true →
      streamBurst cap (s1 ++ s2 ++ rest) st sends = streamMain cap rest st sends) := by
  constructor
  · intro s1 s2 rest st h1 h2
    simp only [camBurst, List.append_assoc, skipPeeks_segment h1,
      skipPeeks_segment h2]
  · intro cap s1 s2 rest st sends h1 h2
    simp only [streamBurst, List.append_assoc, skipPeeks_segment h1,
      skipPeeks_segment h2]

/-- Witness for C9: two concrete dummy segments carrying marker bytes are
discarded by both variants. -/
theorem c9_witness :
    isSegment [([255, 216], false), ([1], true)] = true ∧
    isSegment [([255, 217], true)] = true ∧
    camBurst ([([255, 216], false), ([1], true)] ++ [([255, 217], true)] ++
        [([255, 216, 255, 217], true)]) ⟨false, []⟩ =
      camMain [([255, 216, 255, 217], true)] ⟨false, []⟩ ∧
    streamBurst 16384 ([([255, 216], false), ([1], true)] ++
        [([255, 217], true)] ++ [([], true)]) ⟨false, []⟩ [] =
      streamMain 16384 [([], true)] ⟨false, []⟩ [] := by
  refine ⟨by decide, by decide, ?_, ?_⟩
  · exact c9_dummy_transfers_discarded.1 _ _ _ _ (by decide) (by decide)
  · exact c9_dummy_transfers_discarded.2 16384 _ _ _ _ _ (by decide) (by decide)

/-- C10: whenever the in-progress frame reaches 2048 bytes on a non-marker
byte, the assembler emits the buffered bytes downstream immediately and
resets the cursor to 0: the channel variant flushes the buffer as a `Data`
event, and the socket variant (on a successful `on_chunk`) passes the
2048-byte slice downstream and zeroes `buf_len`, so one frame can be
delivered in several pieces before its end marker arrives. -/
theorem c10_flush_at_2048 :
    (∀ (a : Nat) (fb : List Nat), 2047 ≤ fb.length →
      pushByte a fb = ([], [CamEvent.data (fb ++ [a])])) ∧
    (∀ (cap : Nat) (a : Nat) (st : SState) (s2 : List Bool),
      st.buf.length = 2047 → st.buf.length < cap →
      streamData cap a st (true :: s2) =
        ScanOut.cont ⟨st.found_start, []⟩ [st.buf ++ [a]] s2) := by
  constructor
  · intro a fb h
    unfold pushByte
    rw [if_pos (by simp only [List.length_append, List.length_cons,
      List.length_nil]; omega)]
  · intro cap a st s2 hlen hcap
    simp only [streamData, if_pos hcap,
      if_pos (show 2048 ≤ (st.buf ++ [a]).length by simp [hlen]), takeSend]
    simp

/-- Witness for C10: a 2047-byte buffer flushes on the next data byte in
both variants. -/
theorem c10_witness :
    2047 ≤ (List.replicate 2047 0).length ∧
    pushByte 5 (List.replicate 2047 0) =
      ([], [CamEvent.data (List.replicate 2047 0 ++ [5])]) ∧
    streamData 16384 5 ⟨true, List.replicate 2047 0⟩ [true] =
      ScanOut.cont ⟨true, []⟩ [List.replicate 2047 0 ++ [5]] [] := by
  refine ⟨by simp only [List.length_replicate]; omega,
    c10_flush_at_2048.1 5 _ (by simp only [List.length_replicate]; omega), ?_⟩
  exact c10_flush_at_2048.2 16384 5 ⟨true, List.replicate 2047 0⟩ []
    (by simp only [List.length_replicate])
    (by simp only [List.length_replicate]; omega)
